import Mathlib

/-!
Verification of the git-canvas graph layout engine
(`packages/frontend/src/utils/gitGraph/layoutCalculator.ts`).

The engine is a pure function from commit/branch records to a 2D layout.
We embed the data model (`packages/shared/src/types`) and every function of
the layout module, then prove the spec's claims about them.

Modelling conventions:
- JS numbers used by the engine are naturals (the engine only adds,
  multiplies and takes maxima of non-negative integers); `date` is the
  millisecond timestamp `new Date(c.date).getTime()`.
- `Array.prototype.sort` (stable since ES2019) is modelled by
  `List.insertionSort`, which is stable; a stable sort under a total
  preorder is uniquely determined, so this is faithful.
- JS `Map` objects are association lists: `set` prepends, `get`
  (`alookup`) returns the most recent binding, matching `Map` semantics.
- JS string truthiness matters in two places (`while (currentId && ...)`
  and `if (parentId && ...)`); the empty string is falsy and is modelled
  explicitly.
-/

/-- Commit author record (`CanvasAuthor`). -/
structure CanvasAuthor where
  name : String
  email : String
  avatarUrl : Option String
deriving DecidableEq, Repr

/-- Commit record (`CanvasCommit`): `date` is the numeric timestamp
obtained from the ISO date string. -/
structure CanvasCommit where
  id : String
  shortId : String
  message : String
  fullMessage : String
  date : Nat
  author : CanvasAuthor
  parentIds : List String
  branchNames : List String
  url : String
deriving DecidableEq, Repr

/-- Branch record (`CanvasBranch`). -/
structure CanvasBranch where
  name : String
  latestCommitId : String
  isProtected : Bool
  color : Option String
deriving DecidableEq, Repr

/-- Layout configuration (`LayoutConfig`). -/
structure LayoutConfig where
  nodeSpacing : Nat
  laneHeight : Nat
  startX : Nat
  startY : Nat
  nodeRadius : Nat
deriving DecidableEq, Repr

/-- Default layout configuration (`DEFAULT_LAYOUT_CONFIG`). -/
def DEFAULT_LAYOUT_CONFIG : LayoutConfig :=
  { nodeSpacing := 80, laneHeight := 60, startX := 50, startY := 30, nodeRadius := 8 }

/-- Positioned commit node (`CommitNode extends CanvasCommit`). -/
structure CommitNode extends CanvasCommit where
  x : Nat
  y : Nat
  lane : Nat
deriving DecidableEq, Repr

/-- Classification of a parent-child connector. -/
inductive ConnectionType where
  | normal : ConnectionType
  | merge : ConnectionType
deriving DecidableEq, Repr

/-- Connector record (`CommitConnection`). -/
structure CommitConnection where
  fromCommitId : String
  toCommitId : String
  startX : Nat
  startY : Nat
  endX : Nat
  endY : Nat
  type : ConnectionType
deriving DecidableEq, Repr

/-- Lane record (`BranchLane`); `branchName` is optional. -/
structure BranchLane where
  laneNumber : Nat
  commitIds : List String
  branchName : Option String
deriving DecidableEq, Repr

/-- View box (`viewBox` component of the layout). -/
structure ViewBox where
  width : Nat
  height : Nat
deriving DecidableEq, Repr

/-- Layout result (`GitGraphLayout`). -/
structure GitGraphLayout where
  nodes : List CommitNode
  connections : List CommitConnection
  lanes : List BranchLane
  viewBox : ViewBox
deriving DecidableEq, Repr

/-- JS `Map.get`: association-list lookup returning the most recent
binding (maps are built by prepending). -/
def alookup {β : Type} (m : List (String × β)) (k : String) : Option β :=
  match m with
  | [] => none
  | (k2, v) :: rest => if k2 = k then some v else alookup rest k

/-- Comparator used for chronological sorting: ascending timestamp. -/
def commitDateLe (a b : CanvasCommit) : Prop := a.date ≤ b.date

instance : DecidableRel commitDateLe :=
  fun a b => inferInstanceAs (Decidable (a.date ≤ b.date))

instance : IsTotal CanvasCommit commitDateLe :=
  ⟨fun a b => Nat.le_total a.date b.date⟩

instance : IsTrans CanvasCommit commitDateLe :=
  ⟨fun _ _ _ h1 h2 => Nat.le_trans h1 h2⟩

/-- `sortCommitsByDate`: stable ascending sort by timestamp. -/
def sortCommitsByDate (commits : List CanvasCommit) : List CanvasCommit :=
  List.insertionSort commitDateLe commits

/-- `findBranchPoints`: ids of commits having at least two children within
the input list. -/
def findBranchPoints (commits : List CanvasCommit) : List String :=
  (commits.filter (fun commit =>
    2 ≤ (commits.filter (fun c => commit.id ∈ c.parentIds)).length)).map
    (fun c => c.id)

/-- Inner `while` loop of `findFeaturePaths`: walk backward along first
parents from `currentId`, recording `featureLane` for unassigned commits,
stopping at a branch point, a parentless or unknown commit, a falsy id, or
when the fuel (`maxDepth`, 100 at the top call) runs out. -/
def featureWalk (commitMap : List (String × CanvasCommit)) (branchPoints : List String)
    (featureLane : Nat) : Nat → String → List (String × Nat) → List (String × Nat)
  | 0, _, commitToLane => commitToLane
  | Nat.succ fuel, currentId, commitToLane =>
    if currentId = "" then commitToLane
    else if currentId ∈ branchPoints then commitToLane
    else
      let updated :=
        if (alookup commitToLane currentId).isSome then commitToLane
        else (currentId, featureLane) :: commitToLane
      match alookup commitMap currentId with
      | none => updated
      | some current =>
        match current.parentIds with
        | [] => updated
        | nextId :: _ => featureWalk commitMap branchPoints featureLane fuel nextId updated

/-- State threaded through the merge-commit loop of `findFeaturePaths`. -/
structure FeatureState where
  commitToLane : List (String × Nat)
  availableLanes : List Nat
  maxLaneUsed : Nat
deriving Repr

/-- One iteration of the merge-commit loop of `findFeaturePaths`:
`availableLanes.shift() || ++maxLaneUsed` (note JS `||` also rejects a
shifted 0), walk from the second parent, then push the lane back and
re-sort the free list ascending. -/
def featurePathStep (commitMap : List (String × CanvasCommit)) (branchPoints : List String)
    (st : FeatureState) (mergeCommit : CanvasCommit) : FeatureState :=
  if mergeCommit.parentIds.length < 2 then st
  else
    let pick : Nat × List Nat × Nat :=
      match st.availableLanes with
      | [] => (st.maxLaneUsed + 1, [], st.maxLaneUsed + 1)
      | l :: rest =>
        if l = 0 then (st.maxLaneUsed + 1, rest, st.maxLaneUsed + 1) else (l, rest, st.maxLaneUsed)
    let featureLane := pick.1
    let startId := (mergeCommit.parentIds.get? 1).getD ""
    let ctl := featureWalk commitMap branchPoints featureLane 100 startId st.commitToLane
    { commitToLane := ctl,
      availableLanes := List.insertionSort (fun a b => a ≤ b) (pick.2.1 ++ [featureLane]),
      maxLaneUsed := pick.2.2 }

/-- `findFeaturePaths`: process merge commits chronologically; each walk
records the lane of the commits on the merged feature path. -/
def findFeaturePaths (commits : List CanvasCommit) (branchPoints : List String) :
    List (String × Nat) :=
  let commitMap := commits.foldl (fun m c => (c.id, c) :: m) []
  let mergeCommits := sortCommitsByDate (commits.filter (fun c => 2 ≤ c.parentIds.length))
  (mergeCommits.foldl (featurePathStep commitMap branchPoints)
    { commitToLane := [], availableLanes := [1], maxLaneUsed := 1 }).commitToLane

/-- `calculateMountainHeight`: vertical offset of feature lanes. -/
def calculateMountainHeight (_commit : CanvasCommit) (lane : Nat) : Nat :=
  if 1 ≤ lane then 40 else 0

/-- State threaded through the per-commit loop of `assignLanes`. -/
structure AssignState where
  laneMap : List (String × Nat)
  firstChild : List (String × String)
  maxLaneUsed : Nat
deriving Repr

/-- JS `commit.parentIds[0]` under truthiness: `none` when the list is
empty or the first entry is the (falsy) empty string. -/
def truthyHead (l : List String) : Option String :=
  match l with
  | [] => none
  | p :: _ => if p = "" then none else some p

/-- Lane chosen for one commit by the body of the `assignLanes` loop,
together with the updated `firstChildOfBranchPoint` map and
`maxLaneUsed` counter (steps 5-1 through 5-4 of the source). -/
def assignLaneFor (branchPoints : List String) (commitToLane : List (String × Nat))
    (st : AssignState) (commit : CanvasCommit) : Nat × List (String × String) × Nat :=
  if 2 ≤ commit.parentIds.length then (0, st.firstChild, st.maxLaneUsed)
  else
    match alookup commitToLane commit.id with
    | some lane => (lane, st.firstChild, st.maxLaneUsed)
    | none =>
      if "main" ∈ commit.branchNames then (0, st.firstChild, st.maxLaneUsed)
      else
        match truthyHead commit.parentIds with
        | some parentId =>
          if parentId ∈ branchPoints then
            match alookup st.laneMap parentId with
            | some (Nat.succ parentLane) =>
              (match alookup st.firstChild parentId with
               | none =>
                 (Nat.succ parentLane, (parentId, commit.id) :: st.firstChild, st.maxLaneUsed)
               | some _ => (st.maxLaneUsed + 1, st.firstChild, st.maxLaneUsed + 1))
            | _ =>
              (match alookup st.firstChild parentId with
               | none =>
                 (st.maxLaneUsed + 1, (parentId, commit.id) :: st.firstChild, st.maxLaneUsed + 1)
               | some _ => (st.maxLaneUsed + 1, st.firstChild, st.maxLaneUsed + 1))
          else
            match alookup st.laneMap parentId with
            | some 0 => (st.maxLaneUsed + 1, st.firstChild, st.maxLaneUsed + 1)
            | some (Nat.succ parentLane) => (Nat.succ parentLane, st.firstChild, st.maxLaneUsed)
            | none => (st.maxLaneUsed + 1, st.firstChild, st.maxLaneUsed + 1)
        | none => (st.maxLaneUsed + 1, st.firstChild, st.maxLaneUsed + 1)

/-- One iteration of the `assignLanes` loop: every branch of the source
records exactly one `laneMap.set(commit.id, lane)`. -/
def assignStep (branchPoints : List String) (commitToLane : List (String × Nat))
    (st : AssignState) (commit : CanvasCommit) : AssignState :=
  let r := assignLaneFor branchPoints commitToLane st commit
  { laneMap := (commit.id, r.1) :: st.laneMap, firstChild := r.2.1, maxLaneUsed := r.2.2 }

/-- Maximum of a list of naturals with base 0 (`Math.max(0, ...)`
over the non-negative values in play). -/
def natListMax (l : List Nat) : Nat := l.foldr max 0

/-- `assignLanes`: resolve a lane for every commit of the (already
sorted) list. -/
def assignLanes (commits : List CanvasCommit) : List (String × Nat) :=
  let branchPoints := findBranchPoints commits
  let commitToLane := findFeaturePaths commits branchPoints
  let maxLane0 := natListMax (commitToLane.map (fun kv => kv.2))
  (commits.foldl (assignStep branchPoints commitToLane)
    { laneMap := [], firstChild := [], maxLaneUsed := maxLane0 }).laneMap

/-- `calculateNodePositions`: x from the chronological index, y from the
lane plus the mountain offset. -/
def calculateNodePositions (commits : List CanvasCommit)
    (laneAssignments : List (String × Nat)) (config : LayoutConfig) : List CommitNode :=
  commits.enum.map (fun p =>
    let index := p.1
    let commit := p.2
    let lane := (alookup laneAssignments commit.id).getD 0
    let x := index * config.nodeSpacing + config.startX
    let baseY := lane * config.laneHeight + config.startY
    let y := baseY + calculateMountainHeight commit lane
    { toCanvasCommit := commit, x := x, y := y, lane := lane })

/-- Inner loop of `generateConnections`: the connectors emitted for one
node, one per parent resolving in the node map (dangling parents are
skipped). -/
def connectionsFor (nodeMap : List (String × CommitNode)) (node : CommitNode) :
    List CommitConnection :=
  node.parentIds.filterMap (fun parentId =>
    match alookup nodeMap parentId with
    | none => none
    | some parentNode =>
      some { fromCommitId := node.id, toCommitId := parentId,
             startX := node.x, startY := node.y,
             endX := parentNode.x, endY := parentNode.y,
             type := if 2 ≤ node.parentIds.length then ConnectionType.merge
                     else ConnectionType.normal })

/-- `generateConnections`: one connector per (node, parent) pair whose
parent resolves in the node set; merge sources are classified `merge`. -/
def generateConnections (nodes : List CommitNode) : List CommitConnection :=
  let nodeMap := nodes.foldl (fun m node => (node.id, node) :: m) []
  nodes.flatMap (connectionsFor nodeMap)

/-- Grouping step of `generateBranchLanes`: `Map<number, string[]>` with
first-insertion key order and per-lane append. -/
def updateLaneGroup (m : List (Nat × List String)) (lane : Nat) (commitId : String) :
    List (Nat × List String) :=
  match m with
  | [] => [(lane, [commitId])]
  | (l, ids) :: rest =>
    if l = lane then (l, ids ++ [commitId]) :: rest
    else (l, ids) :: updateLaneGroup rest lane commitId

/-- `generateBranchLanes`: group node ids by lane, no names yet. -/
def generateBranchLanes (nodes : List CommitNode) : List BranchLane :=
  (nodes.foldl (fun m node => updateLaneGroup m node.lane node.id) []).map
    (fun p => { laneNumber := p.1, commitIds := p.2, branchName := none })

/-- JS default string comparison (code-unit lexicographic) on the
character data, as used by `candidateBranches.sort()`. -/
def charListLe : List Char → List Char → Bool
  | [], _ => true
  | _ :: _, [] => false
  | a :: as, b :: bs =>
    if a.val < b.val then true
    else if b.val < a.val then false
    else charListLe as bs

/-- String comparator wrapping `charListLe`. -/
def strLe (a b : String) : Bool := charListLe a.data b.data

/-- `assignBranchNamesToLanes`: lane 0 is always named `main`; other lanes
take the lexicographically smallest non-`main` name of their latest
commit, falling back to a branch whose tip lies in the lane. -/
def assignBranchNamesToLanes (lanes : List BranchLane) (nodes : List CommitNode)
    (branches : List CanvasBranch) : List BranchLane :=
  let nodeMap := nodes.foldl (fun m node => (node.id, node) :: m) []
  lanes.map (fun lane =>
    if lane.laneNumber = 0 then { lane with branchName := some "main" }
    else
      match lane.commitIds.getLast? with
      | none => lane
      | some latestCommitId =>
        match alookup nodeMap latestCommitId with
        | none => lane
        | some latestNode =>
          let candidateBranches := latestNode.branchNames.filter (fun name => name ≠ "main")
          if candidateBranches.isEmpty then
            match branches.find? (fun branch =>
                decide (branch.latestCommitId ∈ lane.commitIds)) with
            | none => { lane with branchName := none }
            | some matching => { lane with branchName := some matching.name }
          else
            { lane with branchName :=
                (List.insertionSort (fun a b => strLe a b = true) candidateBranches).head? })

/-- `calculateViewBox`: trailing margin of one spacing unit, symmetric
vertical margin of `startY`. -/
def calculateViewBox (nodes : List CommitNode) (config : LayoutConfig) : ViewBox :=
  if nodes.isEmpty then { width := 0, height := 0 }
  else
    let maxX := natListMax (nodes.map (fun node => node.x))
    let maxLane := natListMax (nodes.map (fun node => node.lane))
    { width := maxX + config.nodeSpacing,
      height := (maxLane + 1) * config.laneHeight + config.startY * 2 }

/-- `calculateGitGraphLayout`: the full engine (explicit `branches` and
full `config`, per the spec's entry contract). -/
def calculateGitGraphLayout (commits : List CanvasCommit) (branches : List CanvasBranch)
    (config : LayoutConfig) : GitGraphLayout :=
  if commits.isEmpty then
    { nodes := [], connections := [], lanes := [], viewBox := { width := 0, height := 0 } }
  else
    let sortedCommits := sortCommitsByDate commits
    let laneAssignments := assignLanes sortedCommits
    let nodes := calculateNodePositions sortedCommits laneAssignments config
    let connections := generateConnections nodes
    let lanes := generateBranchLanes nodes
    let lanesWithBranchNames := assignBranchNamesToLanes lanes nodes branches
    let viewBox := calculateViewBox nodes config
    { nodes := nodes, connections := connections,
      lanes := lanesWithBranchNames, viewBox := viewBox }

/-- Helper for concrete test inputs: a commit with inert display fields. -/
def mkCommit (id : String) (date : Nat) (parentIds branchNames : List String) : CanvasCommit :=
  { id := id, shortId := id, message := id, fullMessage := id, date := date,
    author := { name := id, email := id, avatarUrl := none },
    parentIds := parentIds, branchNames := branchNames, url := id }

/-- Concrete input: root commit on main. -/
def exRoot : CanvasCommit := mkCommit ("a") 1 [] (["main"])

/-- Concrete input: first feature commit, child of the root. -/
def exFeat1 : CanvasCommit := mkCommit ("b") 2 (["a"]) (["feature"])

/-- Concrete input: merge of the first feature branch. -/
def exMerge1 : CanvasCommit := mkCommit ("m1") 3 (["a", "b"]) (["main"])

/-- Concrete input: second feature commit, begun after the first merge. -/
def exFeat2 : CanvasCommit := mkCommit ("c") 4 (["m1"]) (["topic"])

/-- Concrete input: merge of the second feature branch. -/
def exMerge2 : CanvasCommit := mkCommit ("m2") 5 (["m1", "c"]) (["main"])

/-- Concrete input: two sequential, non-overlapping merged feature
branches (the first fully merged before the second begins). -/
def exTwoFeatures : List CanvasCommit := [exRoot, exFeat1, exMerge1, exFeat2, exMerge2]

/-- Concrete input: a commit on a feature branch only (not on main). -/
def exFeatureOnly : CanvasCommit := mkCommit ("f") 1 [] (["feature"])

/-- Concrete input: a commit whose parent reference is dangling. -/
def exDangling : CanvasCommit := mkCommit ("a") 1 (["ghost"]) (["main"])

/-- Concrete branch record pointing at `exFeatureOnly`. -/
def exBranch : CanvasBranch :=
  { name := "feature", latestCommitId := "f", isProtected := false, color := none }

/-- The lane produced by the default-config layout of `[exFeatureOnly]`. -/
def exLaneFeature : BranchLane :=
  { laneNumber := 1, commitIds := ["f"], branchName := some "feature" }

/-- Concrete config with small positive values. -/
def exSmallConfig : LayoutConfig :=
  { nodeSpacing := 1, laneHeight := 1, startX := 1, startY := 1, nodeRadius := 1 }

/-- The node produced for `exFeat1` by the default-config layout of
`exTwoFeatures`. -/
def exNodeFeat1 : CommitNode := { toCanvasCommit := exFeat1, x := 130, y := 130, lane := 1 }

/-- The node produced for `exDangling` by the default-config layout of
`[exDangling]`. -/
def exNodeDangling : CommitNode := { toCanvasCommit := exDangling, x := 50, y := 30, lane := 0 }

/-!
Theorems.
-/

/-- Each `featureWalk` call adds at most `fuel` entries to the map. -/
theorem featureWalk_length (commitMap : List (String × CanvasCommit))
    (branchPoints : List String) (featureLane : Nat) :
    ∀ (fuel : Nat) (currentId : String) (acc : List (String × Nat)),
      (featureWalk commitMap branchPoints featureLane fuel currentId acc).length ≤
        acc.length + fuel := by
  intro fuel
  induction fuel with
  | zero =>
    intro currentId acc
    simp [featureWalk]
  | succ fuel ih =>
    intro currentId acc
    have hlen : (if (alookup acc currentId).isSome then acc
        else (currentId, featureLane) :: acc).length ≤ acc.length + 1 := by
      split
      · omega
      · simp
    simp only [featureWalk]
    split
    · omega
    · split
      · omega
      · split
        · omega
        · split
          · omega
          · rename_i nextId rest heq
            have := ih nextId (if (alookup acc currentId).isSome then acc
              else (currentId, featureLane) :: acc)
            omega

/-- Entries inserted by `featureWalk` all carry the walk's lane. -/
theorem featureWalk_values (commitMap : List (String × CanvasCommit))
    (branchPoints : List String) (featureLane : Nat) :
    ∀ (fuel : Nat) (currentId : String) (acc : List (String × Nat)),
      (∀ kv ∈ acc, kv.2 = featureLane) →
      ∀ kv ∈ featureWalk commitMap branchPoints featureLane fuel currentId acc,
        kv.2 = featureLane := by
  intro fuel
  induction fuel with
  | zero =>
    intro currentId acc hacc
    simp only [featureWalk]
    exact hacc
  | succ fuel ih =>
    intro currentId acc hacc
    have hupd : ∀ kv ∈ (if (alookup acc currentId).isSome then acc
        else (currentId, featureLane) :: acc), kv.2 = featureLane := by
      split
      · exact hacc
      · intro kv hkv
        rcases List.mem_cons.mp hkv with rfl | hmem
        · rfl
        · exact hacc kv hmem
    simp only [featureWalk]
    split
    · exact hacc
    · split
      · exact hacc
      · split
        · exact hupd
        · split
          · exact hupd
          · exact ih _ _ hupd

/-- One step of the merge loop keeps the free list `[1]`, the counter 1,
and all recorded lanes equal to 1. -/
theorem featurePathStep_invariant (commitMap : List (String × CanvasCommit))
    (branchPoints : List String) (st : FeatureState) (mergeCommit : CanvasCommit)
    (h1 : st.availableLanes = [1]) (h2 : st.maxLaneUsed = 1)
    (h3 : ∀ kv ∈ st.commitToLane, kv.2 = 1) :
    (featurePathStep commitMap branchPoints st mergeCommit).availableLanes = [1] ∧
    (featurePathStep commitMap branchPoints st mergeCommit).maxLaneUsed = 1 ∧
    ∀ kv ∈ (featurePathStep commitMap branchPoints st mergeCommit).commitToLane,
      kv.2 = 1 := by
  unfold featurePathStep
  split
  · exact ⟨h1, h2, h3⟩
  · rw [h1]
    refine ⟨by norm_num [List.insertionSort, List.orderedInsert], h2, ?_⟩
    exact featureWalk_values commitMap branchPoints 1 100 _ st.commitToLane h3

/-- The merge loop of `findFeaturePaths` preserves the lane-1 invariant. -/
theorem foldl_featurePathStep_values (commitMap : List (String × CanvasCommit))
    (branchPoints : List String) :
    ∀ (l : List CanvasCommit) (st : FeatureState),
      st.availableLanes = [1] → st.maxLaneUsed = 1 →
      (∀ kv ∈ st.commitToLane, kv.2 = 1) →
      ∀ kv ∈ (l.foldl (featurePathStep commitMap branchPoints) st).commitToLane,
        kv.2 = 1 := by
  intro l
  induction l with
  | nil =>
    intro st h1 h2 h3
    simpa using h3
  | cons c t ih =>
    intro st h1 h2 h3
    have hstep := featurePathStep_invariant commitMap branchPoints st c h1 h2 h3
    simpa using ih (featurePathStep commitMap branchPoints st c) hstep.1 hstep.2.1 hstep.2.2

/-- Every entry of the feature-path map has lane 1. -/
theorem findFeaturePaths_values (commits : List CanvasCommit) (branchPoints : List String) :
    ∀ kv ∈ findFeaturePaths commits branchPoints, kv.2 = 1 := by
  intro kv h
  unfold findFeaturePaths at h
  exact foldl_featurePathStep_values _ _ _ _ rfl rfl (by simp) kv h

/-- The merge loop adds at most 100 entries per merge commit. -/
theorem foldl_featurePathStep_length (commitMap : List (String × CanvasCommit))
    (branchPoints : List String) :
    ∀ (l : List CanvasCommit) (st : FeatureState),
      ((l.foldl (featurePathStep commitMap branchPoints) st).commitToLane).length ≤
        st.commitToLane.length + 100 * l.length := by
  intro l
  induction l with
  | nil =>
    intro st
    simp
  | cons c t ih =>
    intro st
    have hstep : ((featurePathStep commitMap branchPoints st c).commitToLane).length ≤
        st.commitToLane.length + 100 := by
      simp only [featurePathStep]
      split
      · omega
      · simpa using featureWalk_length commitMap branchPoints _ 100 _ st.commitToLane
    have hrest := ih (featurePathStep commitMap branchPoints st c)
    simp only [List.foldl_cons, List.length_cons]
    omega

/-- C9: the computation is bounded. A single backward walk from a merge
commit records at most 100 commits (the depth guard), and the whole
feature-path discovery records at most 100 entries per merge commit of the
input, for every input including cyclic or irregular parent references;
the embedding of `calculateGitGraphLayout` is total by construction. -/
theorem depth_guard_bounds_feature_walks :
    (∀ (commitMap : List (String × CanvasCommit)) (branchPoints : List String)
       (featureLane : Nat) (currentId : String) (acc : List (String × Nat)),
       (featureWalk commitMap branchPoints featureLane 100 currentId acc).length ≤
         acc.length + 100)
    ∧ ∀ (commits : List CanvasCommit) (branchPoints : List String),
        (findFeaturePaths commits branchPoints).length ≤
          100 * (commits.filter (fun c => 2 ≤ c.parentIds.length)).length := by
  constructor
  · intro commitMap branchPoints featureLane currentId acc
    exact featureWalk_length commitMap branchPoints featureLane 100 currentId acc
  · intro commits branchPoints
    have h := foldl_featurePathStep_length
      (commits.foldl (fun m c => (c.id, c) :: m) []) branchPoints
      (sortCommitsByDate (commits.filter (fun c => 2 ≤ c.parentIds.length)))
      { commitToLane := [], availableLanes := [1], maxLaneUsed := 1 }
    have hlen : (sortCommitsByDate (commits.filter (fun c => 2 ≤ c.parentIds.length))).length =
        (commits.filter (fun c => 2 ≤ c.parentIds.length)).length :=
      (List.perm_insertionSort commitDateLe _).length_eq
    simp only [findFeaturePaths]
    simp only [List.length_nil] at h
    omega

/-- C10: every commit recorded by the feature-path discovery step is
assigned lane 1: each walk returns its lane to the free list when it
completes, so the free list is exactly `[1]` whenever a walk begins and
the fallback allocating a fresh lane is never taken, even for merged
feature branches that overlap in time. -/
theorem featurePath_commits_assigned_lane_one (commits : List CanvasCommit)
    (branchPoints : List String) (kv : String × Nat)
    (h : kv ∈ findFeaturePaths commits branchPoints) : kv.2 = 1 :=
  findFeaturePaths_values commits branchPoints kv h

/-- Witness for C10 on a concrete two-feature history. -/
theorem featurePath_commits_assigned_lane_one_witness :
    ("b", 1) ∈ findFeaturePaths exTwoFeatures (findBranchPoints exTwoFeatures) ∧
    (("b", 1) : String × Nat).2 = 1 :=
  ⟨by decide,
   featurePath_commits_assigned_lane_one exTwoFeatures (findBranchPoints exTwoFeatures)
     ("b", 1) (by decide)⟩

/-- C2: merge commits are processed in ascending timestamp order, each
walk takes the smallest free lane (lane 1 is free at the start) and
returns it on completion (these mechanisms are the definition of
`findFeaturePaths`); consequently any two commits recorded on feature
paths receive the same lane number — in particular the paths of two
sequential merged feature branches where the first is fully merged before
the second begins. -/
theorem sequential_merged_features_share_lane (commits : List CanvasCommit)
    (branchPoints : List String) (k1 k2 : String) (v1 v2 : Nat)
    (h1 : (k1, v1) ∈ findFeaturePaths commits branchPoints)
    (h2 : (k2, v2) ∈ findFeaturePaths commits branchPoints) : v1 = v2 := by
  have e1 := findFeaturePaths_values commits branchPoints (k1, v1) h1
  have e2 := findFeaturePaths_values commits branchPoints (k2, v2) h2
  simp only at e1 e2
  omega

/-- Witness for C2: the two sequential merged feature paths of
`exTwoFeatures` carry equal lane numbers. -/
theorem sequential_merged_features_share_lane_witness :
    (("b", 1) ∈ findFeaturePaths exTwoFeatures (findBranchPoints exTwoFeatures) ∧
     ("c", 1) ∈ findFeaturePaths exTwoFeatures (findBranchPoints exTwoFeatures)) ∧
    (1 : Nat) = 1 :=
  ⟨⟨by decide, by decide⟩,
   sequential_merged_features_share_lane exTwoFeatures
     (findBranchPoints exTwoFeatures) ("b") ("c") 1 1 (by decide) (by decide)⟩

/-- Unfolding lemma: `natListMax` on a cons. -/
theorem natListMax_cons (b : Nat) (t : List Nat) :
    natListMax (b :: t) = max b (natListMax t) := rfl

/-- Every element is bounded by `natListMax`. -/
theorem le_natListMax {l : List Nat} {a : Nat} (h : a ∈ l) : a ≤ natListMax l := by
  induction l with
  | nil => cases h
  | cons b t ih =>
    rw [natListMax_cons]
    rcases List.mem_cons.mp h with rfl | hmem
    · exact Nat.le_max_left _ _
    · exact Nat.le_trans (ih hmem) (Nat.le_max_right _ _)

/-- On a non-empty list, `natListMax` is attained. -/
theorem natListMax_mem {l : List Nat} (h : l ≠ []) : natListMax l ∈ l := by
  induction l with
  | nil => exact absurd rfl h
  | cons b t ih =>
    rw [natListMax_cons]
    cases t with
    | nil => simp [natListMax]
    | cons c t2 =>
      rcases Nat.le_total (natListMax (c :: t2)) b with hle | hle
      · rw [Nat.max_eq_left hle]
        exact List.mem_cons_self _ _
      · rw [Nat.max_eq_right hle]
        exact List.mem_cons_of_mem _ (ih (by simp))

/-- On non-empty input the layout is the full pipeline. -/
theorem calculateGitGraphLayout_eq (commits : List CanvasCommit)
    (branches : List CanvasBranch) (config : LayoutConfig)
    (h : commits.isEmpty = false) :
    calculateGitGraphLayout commits branches config =
      { nodes := calculateNodePositions (sortCommitsByDate commits)
          (assignLanes (sortCommitsByDate commits)) config,
        connections := generateConnections (calculateNodePositions (sortCommitsByDate commits)
          (assignLanes (sortCommitsByDate commits)) config),
        lanes := assignBranchNamesToLanes
          (generateBranchLanes (calculateNodePositions (sortCommitsByDate commits)
            (assignLanes (sortCommitsByDate commits)) config))
          (calculateNodePositions (sortCommitsByDate commits)
            (assignLanes (sortCommitsByDate commits)) config) branches,
        viewBox := calculateViewBox (calculateNodePositions (sortCommitsByDate commits)
          (assignLanes (sortCommitsByDate commits)) config) config } := by
  cases commits with
  | nil => simp at h
  | cons c t => rfl

/-- The node list has one node per input commit. -/
theorem length_calculateNodePositions (commits : List CanvasCommit)
    (la : List (String × Nat)) (config : LayoutConfig) :
    (calculateNodePositions commits la config).length = commits.length := by
  simp [calculateNodePositions]

/-- Structure of any produced node: its commit is one of the inputs, its
lane is the resolved lane, and its y-coordinate follows the lane. -/
theorem mem_calculateNodePositions {commits : List CanvasCommit}
    {la : List (String × Nat)} {config : LayoutConfig} {node : CommitNode}
    (h : node ∈ calculateNodePositions commits la config) :
    node.toCanvasCommit ∈ commits ∧
    node.lane = (alookup la node.id).getD 0 ∧
    node.y = node.lane * config.laneHeight + config.startY +
      calculateMountainHeight node.toCanvasCommit node.lane := by
  simp only [calculateNodePositions, List.mem_map] at h
  obtain ⟨p, hp, hnode⟩ := h
  obtain ⟨i, commit⟩ := p
  obtain ⟨hlt, hco⟩ := List.mem_enum hp
  subst hnode
  refine ⟨?_, rfl, rfl⟩
  rw [hco]
  exact commits.getElem_mem hlt

/-- C7: for non-empty input the view box is `max x + nodeSpacing` wide and
`(max lane + 1) * laneHeight + startY * 2` high, where the maxima are
attained over the produced nodes; for empty input it is zero. -/
theorem viewBox_dimensions (commits : List CanvasCommit) (branches : List CanvasBranch)
    (config : LayoutConfig) :
    (commits = [] → (calculateGitGraphLayout commits branches config).viewBox =
      { width := 0, height := 0 }) ∧
    (commits ≠ [] →
      ∃ mx ml,
        mx ∈ (calculateGitGraphLayout commits branches config).nodes.map CommitNode.x ∧
        (∀ node ∈ (calculateGitGraphLayout commits branches config).nodes, node.x ≤ mx) ∧
        ml ∈ (calculateGitGraphLayout commits branches config).nodes.map CommitNode.lane ∧
        (∀ node ∈ (calculateGitGraphLayout commits branches config).nodes, node.lane ≤ ml) ∧
        (calculateGitGraphLayout commits branches config).viewBox.width =
          mx + config.nodeSpacing ∧
        (calculateGitGraphLayout commits branches config).viewBox.height =
          (ml + 1) * config.laneHeight + config.startY * 2) := by
  constructor
  · intro h
    subst h
    rfl
  · intro h
    have hie : commits.isEmpty = false := by
      cases commits with
      | nil => exact absurd rfl h
      | cons c t => rfl
    rw [calculateGitGraphLayout_eq commits branches config hie]
    have hlen : (calculateNodePositions (sortCommitsByDate commits)
        (assignLanes (sortCommitsByDate commits)) config).length = commits.length := by
      rw [length_calculateNodePositions]
      exact (List.perm_insertionSort commitDateLe commits).length_eq
    have hne : calculateNodePositions (sortCommitsByDate commits)
        (assignLanes (sortCommitsByDate commits)) config ≠ [] := by
      intro heq
      rw [heq] at hlen
      cases commits with
      | nil => exact h rfl
      | cons c t => simp at hlen
    have hieN : (calculateNodePositions (sortCommitsByDate commits)
        (assignLanes (sortCommitsByDate commits)) config).isEmpty = false := by
      cases hh : calculateNodePositions (sortCommitsByDate commits)
          (assignLanes (sortCommitsByDate commits)) config with
      | nil => exact absurd hh hne
      | cons n t => rfl
    refine ⟨natListMax ((calculateNodePositions (sortCommitsByDate commits)
        (assignLanes (sortCommitsByDate commits)) config).map CommitNode.x),
      natListMax ((calculateNodePositions (sortCommitsByDate commits)
        (assignLanes (sortCommitsByDate commits)) config).map CommitNode.lane),
      ?_, ?_, ?_, ?_, ?_, ?_⟩
    · exact natListMax_mem (by simpa using hne)
    · intro node hnode
      exact le_natListMax (List.mem_map_of_mem CommitNode.x hnode)
    · exact natListMax_mem (by simpa using hne)
    · intro node hnode
      exact le_natListMax (List.mem_map_of_mem CommitNode.lane hnode)
    · simp [calculateViewBox, hieN]
    · simp [calculateViewBox, hieN]

/-- Witness for C7 at a concrete non-empty input. -/
theorem viewBox_dimensions_witness :
    ∃ mx ml,
      mx ∈ (calculateGitGraphLayout exTwoFeatures [] DEFAULT_LAYOUT_CONFIG).nodes.map
        CommitNode.x ∧
      (∀ node ∈ (calculateGitGraphLayout exTwoFeatures [] DEFAULT_LAYOUT_CONFIG).nodes,
        node.x ≤ mx) ∧
      ml ∈ (calculateGitGraphLayout exTwoFeatures [] DEFAULT_LAYOUT_CONFIG).nodes.map
        CommitNode.lane ∧
      (∀ node ∈ (calculateGitGraphLayout exTwoFeatures [] DEFAULT_LAYOUT_CONFIG).nodes,
        node.lane ≤ ml) ∧
      (calculateGitGraphLayout exTwoFeatures [] DEFAULT_LAYOUT_CONFIG).viewBox.width =
        mx + DEFAULT_LAYOUT_CONFIG.nodeSpacing ∧
      (calculateGitGraphLayout exTwoFeatures [] DEFAULT_LAYOUT_CONFIG).viewBox.height =
        (ml + 1) * DEFAULT_LAYOUT_CONFIG.laneHeight + DEFAULT_LAYOUT_CONFIG.startY * 2 :=
  (viewBox_dimensions exTwoFeatures [] DEFAULT_LAYOUT_CONFIG).2 (by decide)

/-- C8 (amended): with positive config values and the additional condition
`40 ≤ laneHeight + startY` (satisfied by the defaults 60 and 30, and
forced by the fixed mountain offset of 40), every node lies inside the
view box; coordinates are naturals, so the lower bounds 0 hold trivially. -/
theorem nodes_within_viewBox (commits : List CanvasCommit) (branches : List CanvasBranch)
    (config : LayoutConfig)
    (hns : 0 < config.nodeSpacing) (hlh : 0 < config.laneHeight)
    (hsx : 0 < config.startX) (hsy : 0 < config.startY)
    (hmh : 40 ≤ config.laneHeight + config.startY) :
    ∀ node ∈ (calculateGitGraphLayout commits branches config).nodes,
      node.x ≤ (calculateGitGraphLayout commits branches config).viewBox.width ∧
      node.y ≤ (calculateGitGraphLayout commits branches config).viewBox.height := by
  intro node hnode
  cases commits with
  | nil => simp [calculateGitGraphLayout] at hnode
  | cons c t =>
    rw [calculateGitGraphLayout_eq (c :: t) branches config rfl] at hnode ⊢
    simp only at hnode ⊢
    have hne : calculateNodePositions (sortCommitsByDate (c :: t))
        (assignLanes (sortCommitsByDate (c :: t))) config ≠ [] :=
      List.ne_nil_of_mem hnode
    have hieN : (calculateNodePositions (sortCommitsByDate (c :: t))
        (assignLanes (sortCommitsByDate (c :: t))) config).isEmpty = false := by
      cases hh : calculateNodePositions (sortCommitsByDate (c :: t))
          (assignLanes (sortCommitsByDate (c :: t))) config with
      | nil => exact absurd hh hne
      | cons n t2 => rfl
    have hx : node.x ≤ natListMax ((calculateNodePositions (sortCommitsByDate (c :: t))
        (assignLanes (sortCommitsByDate (c :: t))) config).map (fun node => node.x)) :=
      le_natListMax (List.mem_map_of_mem (fun node => node.x) hnode)
    have hlane : node.lane ≤ natListMax ((calculateNodePositions (sortCommitsByDate (c :: t))
        (assignLanes (sortCommitsByDate (c :: t))) config).map (fun node => node.lane)) :=
      le_natListMax (List.mem_map_of_mem (fun node => node.lane) hnode)
    have hy := (mem_calculateNodePositions hnode).2.2
    constructor
    · simp only [calculateViewBox, hieN, Bool.false_eq_true, if_false]
      omega
    · simp only [calculateViewBox, hieN, Bool.false_eq_true, if_false]
      set ml := natListMax ((calculateNodePositions (sortCommitsByDate (c :: t))
        (assignLanes (sortCommitsByDate (c :: t))) config).map (fun node => node.lane)) with hml
      have hmul : (node.lane + 1) * config.laneHeight ≤ (ml + 1) * config.laneHeight :=
        Nat.mul_le_mul_right config.laneHeight (by omega)
      have hexp1 : (node.lane + 1) * config.laneHeight =
          node.lane * config.laneHeight + config.laneHeight := Nat.succ_mul _ _
      by_cases hl : 1 ≤ node.lane
      · have he : calculateMountainHeight node.toCanvasCommit node.lane = 40 := by
          simp [calculateMountainHeight, hl]
        omega
      · have he : calculateMountainHeight node.toCanvasCommit node.lane = 0 := by
          simp [calculateMountainHeight, hl]
        have hl0 : node.lane = 0 := by omega
        rw [he, hl0] at hy
        simp at hy
        omega

/-- Witness for C8 (amended) at the default config, on the lane-1 node of
the concrete two-feature history. -/
theorem nodes_within_viewBox_witness :
    exNodeFeat1.x ≤
      (calculateGitGraphLayout exTwoFeatures [] DEFAULT_LAYOUT_CONFIG).viewBox.width ∧
    exNodeFeat1.y ≤
      (calculateGitGraphLayout exTwoFeatures [] DEFAULT_LAYOUT_CONFIG).viewBox.height :=
  nodes_within_viewBox exTwoFeatures [] DEFAULT_LAYOUT_CONFIG (by decide) (by decide)
    (by decide) (by decide) (by decide) exNodeFeat1 (by decide)

/-- Counterexample to C8 as stated: with the all-ones config (all values
positive) a feature-lane node escapes the view box vertically, because the
fixed mountain offset 40 exceeds `laneHeight + startY`. -/
theorem nodes_within_viewBox_cex :
    (0 < exSmallConfig.nodeSpacing ∧ 0 < exSmallConfig.laneHeight ∧
     0 < exSmallConfig.startX ∧ 0 < exSmallConfig.startY) ∧
    ∃ node ∈ (calculateGitGraphLayout [exFeatureOnly] [] exSmallConfig).nodes,
      ¬(node.y ≤ (calculateGitGraphLayout [exFeatureOnly] [] exSmallConfig).viewBox.height) := by
  exact ⟨by decide, by decide⟩

/-- The produced nodes carry exactly the input commits, in order. -/
theorem map_toCanvasCommit_calculateNodePositions (commits : List CanvasCommit)
    (la : List (String × Nat)) (config : LayoutConfig) :
    (calculateNodePositions commits la config).map CommitNode.toCanvasCommit = commits := by
  simp only [calculateNodePositions, List.map_map]
  have : (CommitNode.toCanvasCommit ∘ fun p : Nat × CanvasCommit =>
      ({ toCanvasCommit := p.2,
         x := p.1 * config.nodeSpacing + config.startX,
         y := (alookup la p.2.id).getD 0 * config.laneHeight + config.startY +
           calculateMountainHeight p.2 ((alookup la p.2.id).getD 0),
         lane := (alookup la p.2.id).getD 0 } : CommitNode)) = Prod.snd := by
    funext p
    rfl
  rw [this, List.enum_map_snd]

/-- The node at index `i`: explicit coordinates from the index and the
resolved lane. -/
theorem calculateNodePositions_getElem (commits : List CanvasCommit)
    (la : List (String × Nat)) (config : LayoutConfig) (i : Nat) (node : CommitNode)
    (h : (calculateNodePositions commits la config)[i]? = some node) :
    ∃ commit, commits[i]? = some commit ∧
      node = { toCanvasCommit := commit,
               x := i * config.nodeSpacing + config.startX,
               y := (alookup la commit.id).getD 0 * config.laneHeight + config.startY +
                 calculateMountainHeight commit ((alookup la commit.id).getD 0),
               lane := (alookup la commit.id).getD 0 } := by
  simp only [calculateNodePositions, List.getElem?_map, List.getElem?_enum] at h
  cases hc : commits[i]? with
  | none =>
    simp [hc] at h
  | some commit =>
    simp only [hc, Option.map_some'] at h
    exact ⟨commit, rfl, (Option.some_inj.mp h).symm⟩

/-- C3: the nodes are the chronologically sorted commits (ascending by
timestamp, a stable permutation of the input: any already-ordered
subsequence of the input survives as a subsequence of the sorted order);
the node at sorted index `i` with resolved lane `L` sits at
`x = i * nodeSpacing + startX` and
`y = L * laneHeight + startY + (40 if 1 ≤ L else 0)`. -/
theorem node_coordinates_from_sorted_index (commits : List CanvasCommit)
    (branches : List CanvasBranch) (config : LayoutConfig) :
    ((calculateGitGraphLayout commits branches config).nodes.map CommitNode.toCanvasCommit =
      sortCommitsByDate commits) ∧
    List.Sorted commitDateLe (sortCommitsByDate commits) ∧
    (sortCommitsByDate commits).Perm commits ∧
    (∀ sub : List CanvasCommit, List.Pairwise commitDateLe sub → sub.Sublist commits →
      sub.Sublist (sortCommitsByDate commits)) ∧
    ∀ (i : Nat) (node : CommitNode),
      (calculateGitGraphLayout commits branches config).nodes[i]? = some node →
      node.x = i * config.nodeSpacing + config.startX ∧
      node.y = node.lane * config.laneHeight + config.startY +
        (if 1 ≤ node.lane then 40 else 0) := by
  refine ⟨?_, List.sorted_insertionSort commitDateLe commits,
    List.perm_insertionSort commitDateLe commits,
    fun sub hpair hsub => List.sublist_insertionSort hpair hsub, ?_⟩
  · cases commits with
    | nil => rfl
    | cons c t =>
      rw [calculateGitGraphLayout_eq (c :: t) branches config rfl]
      exact map_toCanvasCommit_calculateNodePositions _ _ config
  · intro i node h
    cases commits with
    | nil => simp [calculateGitGraphLayout] at h
    | cons c t =>
      rw [calculateGitGraphLayout_eq (c :: t) branches config rfl] at h
      simp only at h
      obtain ⟨commit, hcm, rfl⟩ := calculateNodePositions_getElem
        (sortCommitsByDate (c :: t)) (assignLanes (sortCommitsByDate (c :: t)))
        config i node h
      exact ⟨rfl, rfl⟩

/-- Witness for C3: stability and coordinates at concrete inputs. -/
theorem node_coordinates_from_sorted_index_witness :
    ([exRoot, exMerge1].Sublist (sortCommitsByDate exTwoFeatures)) ∧
    (exNodeFeat1.x = 1 * DEFAULT_LAYOUT_CONFIG.nodeSpacing + DEFAULT_LAYOUT_CONFIG.startX ∧
     exNodeFeat1.y = exNodeFeat1.lane * DEFAULT_LAYOUT_CONFIG.laneHeight +
       DEFAULT_LAYOUT_CONFIG.startY + (if 1 ≤ exNodeFeat1.lane then 40 else 0)) :=
  ⟨(node_coordinates_from_sorted_index exTwoFeatures [] DEFAULT_LAYOUT_CONFIG).2.2.2.1
      [exRoot, exMerge1] (by decide) (by decide),
   (node_coordinates_from_sorted_index exTwoFeatures [] DEFAULT_LAYOUT_CONFIG).2.2.2.2
      1 exNodeFeat1 (by decide)⟩

/-- Unfolding lemma for `alookup` on a cons cell. -/
theorem alookup_cons {β : Type} (k2 : String) (v : β) (rest : List (String × β)) (k : String) :
    alookup ((k2, v) :: rest) k = if k2 = k then some v else alookup rest k := rfl

/-- A hit in a prepend-built id map comes from the list (or the seed). -/
theorem alookup_idmap_mem {α : Type} (key : α → String) :
    ∀ (l : List α) (acc : List (String × α)) (k : String) (v : α),
      alookup (l.foldl (fun m a => (key a, a) :: m) acc) k = some v →
      (v ∈ l ∧ key v = k) ∨ alookup acc k = some v := by
  intro l
  induction l with
  | nil =>
    intro acc k v h
    exact Or.inr h
  | cons a t ih =>
    intro acc k v h
    rcases ih ((key a, a) :: acc) k v h with hin | hacc
    · exact Or.inl ⟨List.mem_cons_of_mem _ hin.1, hin.2⟩
    · rw [alookup_cons] at hacc
      by_cases hk : key a = k
      · rw [if_pos hk] at hacc
        have hav : a = v := Option.some_inj.mp hacc
        subst hav
        exact Or.inl ⟨List.mem_cons_self _ _, hk⟩
      · rw [if_neg hk] at hacc
        exact Or.inr hacc

/-- Every produced connection comes from a node and one of its parents
that resolves in the node map, and copies their data. -/
theorem mem_generateConnections {nodes : List CommitNode} {conn : CommitConnection}
    (h : conn ∈ generateConnections nodes) :
    ∃ node ∈ nodes, ∃ parentId ∈ node.parentIds, ∃ parentNode,
      alookup (nodes.foldl (fun m n => (n.id, n) :: m) []) parentId = some parentNode ∧
      conn = { fromCommitId := node.id, toCommitId := parentId,
               startX := node.x, startY := node.y,
               endX := parentNode.x, endY := parentNode.y,
               type := if 2 ≤ node.parentIds.length then ConnectionType.merge
                       else ConnectionType.normal } := by
  simp only [generateConnections, connectionsFor, List.mem_flatMap, List.mem_filterMap] at h
  obtain ⟨node, hnode, parentId, hpid, hmap⟩ := h
  refine ⟨node, hnode, parentId, hpid, ?_⟩
  cases halo : alookup (nodes.foldl (fun m n => (n.id, n) :: m) []) parentId with
  | none =>
    rw [halo] at hmap
    simp at hmap
  | some parentNode =>
    rw [halo] at hmap
    simp only at hmap
    exact ⟨parentNode, rfl, (Option.some_inj.mp hmap).symm⟩

/-- C6: a dangling parent reference produces no connection record (its id
never appears as a connection target), while the rest of the layout is
produced as usual (one node per input commit); the embedding is a total
function, so nothing is thrown. -/
theorem dangling_parent_tolerated (commits : List CanvasCommit)
    (branches : List CanvasBranch) (config : LayoutConfig) (pid : String)
    (hmiss : ∀ c ∈ commits, c.id ≠ pid) :
    (calculateGitGraphLayout commits branches config).nodes.length = commits.length ∧
    ∀ conn ∈ (calculateGitGraphLayout commits branches config).connections,
      conn.toCommitId ≠ pid := by
  constructor
  · cases commits with
    | nil => rfl
    | cons c t =>
      rw [calculateGitGraphLayout_eq (c :: t) branches config rfl]
      simp only
      rw [length_calculateNodePositions]
      exact (List.perm_insertionSort commitDateLe (c :: t)).length_eq
  · intro conn hconn
    cases commits with
    | nil => simp [calculateGitGraphLayout] at hconn
    | cons c t =>
      rw [calculateGitGraphLayout_eq (c :: t) branches config rfl] at hconn
      simp only at hconn
      obtain ⟨node, hnode, parentId, hpid, parentNode, halo, hconnEq⟩ :=
        mem_generateConnections hconn
      rcases alookup_idmap_mem (fun n : CommitNode => n.id) _ [] parentId parentNode halo with
        hin | habs
      · have hmem : parentNode.toCanvasCommit ∈ sortCommitsByDate (c :: t) :=
          (mem_calculateNodePositions hin.1).1
        have hmem2 : parentNode.toCanvasCommit ∈ (c :: t) :=
          (List.perm_insertionSort commitDateLe (c :: t)).subset hmem
        have hne : parentNode.toCanvasCommit.id ≠ pid := hmiss _ hmem2
        rw [hconnEq]
        show parentId ≠ pid
        intro hEq
        exact hne (hin.2.trans hEq)
      · simp [alookup] at habs

/-- Witness for C6 at a concrete input with a dangling parent. -/
theorem dangling_parent_tolerated_witness :
    (calculateGitGraphLayout [exDangling] [] DEFAULT_LAYOUT_CONFIG).nodes.length =
      [exDangling].length ∧
    ∀ conn ∈ (calculateGitGraphLayout [exDangling] [] DEFAULT_LAYOUT_CONFIG).connections,
      conn.toCommitId ≠ "ghost" :=
  dangling_parent_tolerated [exDangling] [] DEFAULT_LAYOUT_CONFIG ("ghost") (by decide)

/-- Every branch of the `assignLanes` loop body records exactly one lane
for the processed commit. -/
theorem assignStep_laneMap (branchPoints : List String) (commitToLane : List (String × Nat))
    (st : AssignState) (commit : CanvasCommit) :
    (assignStep branchPoints commitToLane st commit).laneMap =
      (commit.id, (assignLaneFor branchPoints commitToLane st commit).1) :: st.laneMap := rfl

/-- Commits further down the loop do not disturb the lane of an id they do
not carry. -/
theorem alookup_foldl_assignStep_skip (branchPoints : List String)
    (commitToLane : List (String × Nat)) :
    ∀ (l : List CanvasCommit) (st : AssignState) (k : String),
      k ∉ l.map CanvasCommit.id →
      alookup ((l.foldl (assignStep branchPoints commitToLane) st).laneMap) k =
        alookup st.laneMap k := by
  intro l
  induction l with
  | nil =>
    intro st k hk
    rfl
  | cons c t ih =>
    intro st k hk
    simp only [List.map_cons, List.mem_cons, not_or] at hk
    rw [List.foldl_cons, ih _ k hk.2, assignStep_laneMap, alookup_cons]
    rw [if_neg (fun hEq => hk.1 hEq.symm)]

/-- Step 5-1 of `assignLanes`: under distinct ids, a merge commit resolves
to lane 0. -/
theorem assignLanes_merge_lane_zero (commits : List CanvasCommit)
    (hnd : (commits.map CanvasCommit.id).Nodup) (c : CanvasCommit) (hc : c ∈ commits)
    (hm : 2 ≤ c.parentIds.length) :
    alookup (assignLanes commits) c.id = some 0 := by
  obtain ⟨l1, l2, rfl⟩ := List.append_of_mem hc
  have hnotin : c.id ∉ l2.map CanvasCommit.id := by
    rw [List.map_append, List.map_cons] at hnd
    have h2 := hnd.of_append_right
    exact (List.nodup_cons.mp h2).1
  simp only [assignLanes]
  rw [List.foldl_append, List.foldl_cons]
  rw [alookup_foldl_assignStep_skip _ _ l2 _ c.id hnotin]
  rw [assignStep_laneMap, alookup_cons, if_pos rfl]
  have hfor : (assignLaneFor (findBranchPoints (l1 ++ c :: l2))
      (findFeaturePaths (l1 ++ c :: l2) (findBranchPoints (l1 ++ c :: l2)))
      (List.foldl (assignStep (findBranchPoints (l1 ++ c :: l2))
        (findFeaturePaths (l1 ++ c :: l2) (findBranchPoints (l1 ++ c :: l2))))
        { laneMap := [], firstChild := [],
          maxLaneUsed := natListMax ((findFeaturePaths (l1 ++ c :: l2)
            (findBranchPoints (l1 ++ c :: l2))).map (fun kv => kv.2)) } l1) c).1 = 0 := by
    rw [assignLaneFor, if_pos hm]
  rw [hfor]

/-- Distinct ids identify commits within a list. -/
theorem eq_of_mem_of_id_eq {l : List CanvasCommit} (hnd : (l.map CanvasCommit.id).Nodup)
    {a b : CanvasCommit} (ha : a ∈ l) (hb : b ∈ l) (hid : a.id = b.id) : a = b := by
  induction l with
  | nil => cases ha
  | cons x t ih =>
    simp only [List.map_cons, List.nodup_cons] at hnd
    rcases List.mem_cons.mp ha with rfl | ha2
    · rcases List.mem_cons.mp hb with rfl | hb2
      · rfl
      · exact absurd (hid ▸ List.mem_map_of_mem CanvasCommit.id hb2) hnd.1
    · rcases List.mem_cons.mp hb with rfl | hb2
      · exact absurd (hid ▸ List.mem_map_of_mem CanvasCommit.id ha2)
          (by rw [hid] at *; exact fun hmem => hnd.1 hmem)
      · exact ih hnd.2 ha2 hb2

/-- C1: under the engine's documented precondition of distinct commit ids,
every merge commit (two or more parents) appears as a node assigned lane 0
regardless of its branch names or chronological position, and every
connection whose source is that commit has type `merge`. -/
theorem merge_commit_lane_zero_and_merge_connections (commits : List CanvasCommit)
    (branches : List CanvasBranch) (config : LayoutConfig)
    (hnd : (commits.map CanvasCommit.id).Nodup)
    (c : CanvasCommit) (hc : c ∈ commits) (hm : 2 ≤ c.parentIds.length) :
    (∃ node ∈ (calculateGitGraphLayout commits branches config).nodes, node.id = c.id) ∧
    (∀ node ∈ (calculateGitGraphLayout commits branches config).nodes,
      node.id = c.id → node.lane = 0) ∧
    (∀ conn ∈ (calculateGitGraphLayout commits branches config).connections,
      conn.fromCommitId = c.id → conn.type = ConnectionType.merge) := by
  cases commits with
  | nil => cases hc
  | cons c0 t =>
    have hperm : (sortCommitsByDate (c0 :: t)).Perm (c0 :: t) :=
      List.perm_insertionSort commitDateLe (c0 :: t)
    have hndS : ((sortCommitsByDate (c0 :: t)).map CanvasCommit.id).Nodup :=
      (hperm.map CanvasCommit.id).nodup_iff.mpr hnd
    have hcS : c ∈ sortCommitsByDate (c0 :: t) := hperm.mem_iff.mpr hc
    refine ⟨?_, ?_, ?_⟩
    · rw [calculateGitGraphLayout_eq (c0 :: t) branches config rfl]
      simp only
      have hmap := map_toCanvasCommit_calculateNodePositions (sortCommitsByDate (c0 :: t))
        (assignLanes (sortCommitsByDate (c0 :: t))) config
      have : c ∈ (calculateNodePositions (sortCommitsByDate (c0 :: t))
          (assignLanes (sortCommitsByDate (c0 :: t))) config).map CommitNode.toCanvasCommit := by
        rw [hmap]
        exact hcS
      obtain ⟨node, hnode, hni⟩ := List.mem_map.mp this
      exact ⟨node, hnode, by rw [← hni]⟩
    · intro node hnode hid
      rw [calculateGitGraphLayout_eq (c0 :: t) branches config rfl] at hnode
      simp only at hnode
      have hstruct := mem_calculateNodePositions hnode
      rw [hstruct.2.1, hid, assignLanes_merge_lane_zero _ hndS c hcS hm]
      rfl
    · intro conn hconn hfrom
      rw [calculateGitGraphLayout_eq (c0 :: t) branches config rfl] at hconn
      simp only at hconn
      obtain ⟨node, hnode, parentId, hpid, parentNode, halo, hconnEq⟩ :=
        mem_generateConnections hconn
      have hfi : node.id = c.id := by
        rw [hconnEq] at hfrom
        exact hfrom
      have hmemS : node.toCanvasCommit ∈ sortCommitsByDate (c0 :: t) :=
        (mem_calculateNodePositions hnode).1
      have hEqc : node.toCanvasCommit = c := eq_of_mem_of_id_eq hndS hmemS hcS hfi
      have hm2 : 2 ≤ node.parentIds.length := by
        show 2 ≤ node.toCanvasCommit.parentIds.length
        rw [hEqc]
        exact hm
      rw [hconnEq]
      show (if 2 ≤ node.parentIds.length then ConnectionType.merge
        else ConnectionType.normal) = ConnectionType.merge
      rw [if_pos hm2]

/-- Witness for C1 on the concrete two-feature history, at its first
merge commit. -/
theorem merge_commit_lane_zero_and_merge_connections_witness :
    (∃ node ∈ (calculateGitGraphLayout exTwoFeatures [] DEFAULT_LAYOUT_CONFIG).nodes,
      node.id = exMerge1.id) ∧
    (∀ node ∈ (calculateGitGraphLayout exTwoFeatures [] DEFAULT_LAYOUT_CONFIG).nodes,
      node.id = exMerge1.id → node.lane = 0) ∧
    (∀ conn ∈ (calculateGitGraphLayout exTwoFeatures [] DEFAULT_LAYOUT_CONFIG).connections,
      conn.fromCommitId = exMerge1.id → conn.type = ConnectionType.merge) :=
  merge_commit_lane_zero_and_merge_connections exTwoFeatures [] DEFAULT_LAYOUT_CONFIG
    (by decide) exMerge1 (by decide) (by decide)

/-- The length of a `filterMap` counts the hits. -/
theorem length_filterMap_eq_countP {α β : Type} (g : α → Option β) (l : List α) :
    (l.filterMap g).length = l.countP (fun a => (g a).isSome) := by
  induction l with
  | nil => rfl
  | cons a t ih =>
    cases hg : g a with
    | none => simp [List.filterMap_cons, hg, List.countP_cons, ih]
    | some b => simp [List.filterMap_cons, hg, List.countP_cons, ih]

/-- Every connector emitted for a node names that node as its source. -/
theorem connectionsFor_fromCommitId (nodeMap : List (String × CommitNode))
    (node : CommitNode) : ∀ conn ∈ connectionsFor nodeMap node,
      conn.fromCommitId = node.id := by
  intro conn h
  simp only [connectionsFor, List.mem_filterMap] at h
  obtain ⟨parentId, hp, hm⟩ := h
  cases halo : alookup nodeMap parentId with
  | none =>
    rw [halo] at hm
    simp at hm
  | some parentNode =>
    rw [halo] at hm
    simp only at hm
    rw [← Option.some_inj.mp hm]

/-- A node emits one connector per parent that resolves in the map. -/
theorem length_connectionsFor (nodeMap : List (String × CommitNode)) (node : CommitNode) :
    (connectionsFor nodeMap node).length =
      node.parentIds.countP (fun p => (alookup nodeMap p).isSome) := by
  rw [connectionsFor, length_filterMap_eq_countP]
  apply List.countP_congr
  intro p _
  cases halo : alookup nodeMap p with
  | none => simp [halo]
  | some parentNode => simp [halo]

/-- Counting connectors by source over the whole flatMap, given distinct
node ids. -/
theorem flatMap_connectionsFor_countP (nodeMap : List (String × CommitNode)) :
    ∀ (l : List CommitNode), (l.map (fun n => n.id)).Nodup → ∀ node ∈ l,
      ((l.flatMap (connectionsFor nodeMap)).countP
        (fun conn => conn.fromCommitId == node.id)) =
        node.parentIds.countP (fun p => (alookup nodeMap p).isSome) := by
  intro l
  induction l with
  | nil =>
    intro _ node h
    cases h
  | cons a t ih =>
    intro hnd2 node hnode
    rw [List.flatMap_cons, List.countP_append]
    simp only [List.map_cons, List.nodup_cons] at hnd2
    rcases List.mem_cons.mp hnode with rfl | hmem
    · have hblock : (connectionsFor nodeMap node).countP
          (fun conn => conn.fromCommitId == node.id) =
          (connectionsFor nodeMap node).length := by
        rw [List.countP_eq_length]
        intro conn hconn
        simp [connectionsFor_fromCommitId nodeMap node conn hconn]
      have hrest : (t.flatMap (connectionsFor nodeMap)).countP
          (fun conn => conn.fromCommitId == node.id) = 0 := by
        rw [List.countP_eq_zero]
        intro conn hconn
        obtain ⟨b, hb, hcb⟩ := List.mem_flatMap.mp hconn
        have hf := connectionsFor_fromCommitId nodeMap b conn hcb
        simp only [beq_iff_eq, hf]
        intro hEq
        exact hnd2.1 (hEq ▸ List.mem_map_of_mem _ hb)
      rw [hblock, hrest, length_connectionsFor, Nat.add_zero]
    · have hane : a.id ≠ node.id := fun hEq => hnd2.1 (hEq ▸ List.mem_map_of_mem _ hmem)
      have hblock : (connectionsFor nodeMap a).countP
          (fun conn => conn.fromCommitId == node.id) = 0 := by
        rw [List.countP_eq_zero]
        intro conn hconn
        have hf := connectionsFor_fromCommitId nodeMap a conn hconn
        simp only [beq_iff_eq, hf]
        exact hane
      rw [hblock, ih hnd2.2 node hmem, Nat.zero_add]

/-- A hit in the prepend-built node map is exactly membership of the key
among the node ids. -/
theorem alookup_idmap_isSome_aux :
    ∀ (l : List CommitNode) (acc : List (String × CommitNode)) (p : String),
      (alookup (l.foldl (fun m n => (n.id, n) :: m) acc) p).isSome =
        (l.any (fun n2 => n2.id == p) || (alookup acc p).isSome) := by
  intro l
  induction l with
  | nil =>
    intro acc p
    simp
  | cons a t ih =>
    intro acc p
    rw [List.foldl_cons, ih, List.any_cons, alookup_cons]
    by_cases hp : a.id = p
    · simp [hp]
    · simp [hp, Bool.or_assoc]

/-- C4 (amended): under distinct commit ids, the number of connection
records whose source is a given node equals the number of entries of that
node's `parentIds` that are present in the node set (dangling entries emit
no record). -/
theorem connections_count_eq_present_parents (commits : List CanvasCommit)
    (branches : List CanvasBranch) (config : LayoutConfig)
    (hnd : (commits.map CanvasCommit.id).Nodup) :
    ∀ node ∈ (calculateGitGraphLayout commits branches config).nodes,
      ((calculateGitGraphLayout commits branches config).connections.countP
        (fun conn => conn.fromCommitId == node.id)) =
      node.parentIds.countP (fun p =>
        (calculateGitGraphLayout commits branches config).nodes.any
          (fun n2 => n2.id == p)) := by
  intro node hnode
  cases commits with
  | nil => simp [calculateGitGraphLayout] at hnode
  | cons c0 t =>
    rw [calculateGitGraphLayout_eq (c0 :: t) branches config rfl] at hnode ⊢
    simp only at hnode ⊢
    have hperm : (sortCommitsByDate (c0 :: t)).Perm (c0 :: t) :=
      List.perm_insertionSort commitDateLe (c0 :: t)
    have hndS : ((sortCommitsByDate (c0 :: t)).map CanvasCommit.id).Nodup :=
      (hperm.map CanvasCommit.id).nodup_iff.mpr hnd
    have hndN : ((calculateNodePositions (sortCommitsByDate (c0 :: t))
        (assignLanes (sortCommitsByDate (c0 :: t))) config).map
        (fun n => n.id)).Nodup := by
      have hmap := map_toCanvasCommit_calculateNodePositions (sortCommitsByDate (c0 :: t))
        (assignLanes (sortCommitsByDate (c0 :: t))) config
      have heq2 : (calculateNodePositions (sortCommitsByDate (c0 :: t))
          (assignLanes (sortCommitsByDate (c0 :: t))) config).map
            (fun n : CommitNode => n.id) =
          ((calculateNodePositions (sortCommitsByDate (c0 :: t))
            (assignLanes (sortCommitsByDate (c0 :: t))) config).map
              CommitNode.toCanvasCommit).map CanvasCommit.id := by
        rw [List.map_map]
        rfl
      rw [heq2, hmap]
      exact hndS
    simp only [generateConnections]
    rw [flatMap_connectionsFor_countP _ _ hndN node hnode]
    apply List.countP_congr
    intro p _
    rw [alookup_idmap_isSome_aux _ [] p]
    simp [alookup]

/-- Witness for C4 (amended): the dangling-parent commit emits zero
connections and has zero present parents. -/
theorem connections_count_eq_present_parents_witness :
    ((calculateGitGraphLayout [exDangling] [] DEFAULT_LAYOUT_CONFIG).connections.countP
      (fun conn => conn.fromCommitId == exNodeDangling.id)) =
      exNodeDangling.parentIds.countP (fun p =>
        (calculateGitGraphLayout [exDangling] [] DEFAULT_LAYOUT_CONFIG).nodes.any
          (fun n2 => n2.id == p)) :=
  connections_count_eq_present_parents [exDangling] [] DEFAULT_LAYOUT_CONFIG (by decide)
    exNodeDangling (by decide)

/-- Counterexample to C4 as stated: a node whose only parent reference is
dangling has one `parentIds` entry but zero outgoing connection records. -/
theorem connections_count_eq_parentIds_cex :
    ∃ node ∈ (calculateGitGraphLayout [exDangling] [] DEFAULT_LAYOUT_CONFIG).nodes,
      ¬(((calculateGitGraphLayout [exDangling] [] DEFAULT_LAYOUT_CONFIG).connections.countP
          (fun conn => conn.fromCommitId == node.id)) = node.parentIds.length) := by
  decide

/-- Lanes leave `generateBranchLanes` unnamed. -/
theorem generateBranchLanes_branchName (nodes : List CommitNode) :
    ∀ lane ∈ generateBranchLanes nodes, lane.branchName = none := by
  intro lane h
  simp only [generateBranchLanes, List.mem_map] at h
  obtain ⟨p, hp, hl⟩ := h
  rw [← hl]

/-- C5 (amended): the `branches` argument plays no part in lane
assignment — with an empty `branches` list the nodes, connections and
view box coincide with those for any `branches` list (so commits off main
may still occupy lanes ≥ 1) — and each output lane is then named `main`
(lane 0), left unnamed, or named by a non-`main` branch name carried by
one of the nodes; the empty `branches` list contributes no name. -/
theorem empty_branches_degrade (commits : List CanvasCommit)
    (branches : List CanvasBranch) (config : LayoutConfig) :
    ((calculateGitGraphLayout commits [] config).nodes =
      (calculateGitGraphLayout commits branches config).nodes) ∧
    ((calculateGitGraphLayout commits [] config).connections =
      (calculateGitGraphLayout commits branches config).connections) ∧
    ((calculateGitGraphLayout commits [] config).viewBox =
      (calculateGitGraphLayout commits branches config).viewBox) ∧
    ∀ lane ∈ (calculateGitGraphLayout commits [] config).lanes,
      (lane.laneNumber = 0 → lane.branchName = some "main") ∧
      (lane.laneNumber ≠ 0 → lane.branchName = none ∨
        ∃ node ∈ (calculateGitGraphLayout commits [] config).nodes, ∃ s,
          lane.branchName = some s ∧ s ≠ "main" ∧ s ∈ node.branchNames) := by
  cases commits with
  | nil => exact ⟨rfl, rfl, rfl, by intro lane h; cases h⟩
  | cons c0 t =>
    rw [calculateGitGraphLayout_eq (c0 :: t) [] config rfl,
      calculateGitGraphLayout_eq (c0 :: t) branches config rfl]
    refine ⟨rfl, rfl, rfl, ?_⟩
    intro lane hlane
    simp only [assignBranchNamesToLanes, List.mem_map] at hlane
    obtain ⟨lane0, hlane0, hfl⟩ := hlane
    have hbn0 : lane0.branchName = none := generateBranchLanes_branchName _ lane0 hlane0
    rw [← hfl]
    by_cases h0 : lane0.laneNumber = 0
    · rw [if_pos h0]
      exact ⟨fun _ => rfl, fun h => absurd h0 h⟩
    · rw [if_neg h0]
      split
      · exact ⟨fun hzero => absurd hzero h0, fun _ => Or.inl hbn0⟩
      · rename_i latestId hlast
        split
        · exact ⟨fun hzero => absurd hzero h0, fun _ => Or.inl hbn0⟩
        · rename_i latestNode halo
          by_cases hcand :
              (latestNode.branchNames.filter (fun name => name ≠ "main")).isEmpty = true
          · rw [if_pos hcand]
            simp only [List.find?_nil]
            exact ⟨fun hzero => absurd hzero h0, fun _ => Or.inl trivial⟩
          · rw [if_neg hcand]
            cases hh : (List.insertionSort (fun a b => strLe a b = true)
                (latestNode.branchNames.filter (fun name => name ≠ "main"))).head? with
            | none =>
              exact ⟨fun hzero => absurd hzero h0, fun _ => Or.inl rfl⟩
            | some s =>
              have hs : s ∈ List.insertionSort (fun a b => strLe a b = true)
                  (latestNode.branchNames.filter (fun name => name ≠ "main")) :=
                List.mem_of_mem_head? hh
              have hs2 : s ∈ latestNode.branchNames.filter (fun name => name ≠ "main") :=
                (List.perm_insertionSort _ _).subset hs
              have hsf := List.mem_filter.mp hs2
              have hsne : s ≠ "main" := by
                have := hsf.2
                simpa using this
              rcases alookup_idmap_mem (fun n : CommitNode => n.id) _ [] latestId
                  latestNode halo with hin | habs
              · exact ⟨fun hzero => absurd hzero h0,
                  fun _ => Or.inr ⟨latestNode, hin.1, s, rfl, hsne, hsf.1⟩⟩
              · simp [alookup] at habs

/-- Counterexample to C5 as stated: with an empty `branches` list a commit
not on main is still assigned lane 1, not lane 0, and its lane is named
from the commit's own branch names. -/
theorem empty_branches_lane_zero_cex :
    ∃ node ∈ (calculateGitGraphLayout [exFeatureOnly] [] DEFAULT_LAYOUT_CONFIG).nodes,
      ¬(node.lane = 0) := by
  decide

/-- Witness for C5 (amended) at concrete inputs. -/
theorem empty_branches_degrade_witness :
    ((calculateGitGraphLayout [exFeatureOnly] [] DEFAULT_LAYOUT_CONFIG).nodes =
      (calculateGitGraphLayout [exFeatureOnly] [exBranch] DEFAULT_LAYOUT_CONFIG).nodes) ∧
    ((exLaneFeature.laneNumber = 0 → exLaneFeature.branchName = some "main") ∧
     (exLaneFeature.laneNumber ≠ 0 → exLaneFeature.branchName = none ∨
        ∃ node ∈ (calculateGitGraphLayout [exFeatureOnly] [] DEFAULT_LAYOUT_CONFIG).nodes,
          ∃ s, exLaneFeature.branchName = some s ∧ s ≠ "main" ∧ s ∈ node.branchNames)) :=
  ⟨(empty_branches_degrade [exFeatureOnly] [exBranch] DEFAULT_LAYOUT_CONFIG).1,
   (empty_branches_degrade [exFeatureOnly] [exBranch] DEFAULT_LAYOUT_CONFIG).2.2.2
     exLaneFeature (by decide)⟩
